import Mathlib

/-!
Verification of the reminder data model, scheduler loop, and command API of
`src/main.py` (a Discord calendar-reminder bot), via a shallow embedding.

Conventions of the embedding:
* Python `datetime.date` values are `RawDate` triples; `validDate` captures
  exactly the calendar validity that `datetime.strptime(s, "%Y-%m-%d")` /
  `datetime.date(y, m, d)` enforce (leap years per the Gregorian rule,
  year within 1..9999).  A stored `"date"` string is modelled as the triple
  it denotes; an unparseable string is a triple with `validDate = false`.
* `date - timedelta(days=n)` comparisons are modelled through `rataDie`,
  the injective day-number of a date, so `today == d - timedelta(n)` becomes
  `rataDie today = rataDie d - n` over `Int`.
* The Discord channel lookup `bot.get_channel` and the outcome of
  `await channel.send` are an environment `Env` of boolean oracles.
  An exception raised by `channel.send`, or by the unguarded
  `date(today.year, m, d)` construction in the yearly branch, aborts the
  whole pass (`tasks.loop` does not resume the iteration): this is the
  `crashed` flag of `PassResult`, with the store left unchanged because the
  batched removal at the end of the loop body is never reached.
* `save_reminders` persistence is modelled by the `disk` component of
  `Store` for the command handlers.
-/

/-- A calendar date as the triple of its components (Python `datetime.date`,
or the `YYYY-MM-DD` string denoting it). -/
structure RawDate where
  y : Nat
  m : Nat
  d : Nat
deriving DecidableEq, Repr

/-- Gregorian leap-year rule, as implemented by Python's `calendar`/`datetime`. -/
def isLeap (y : Nat) : Bool :=
  (y % 4 == 0 && y % 100 != 0) || (y % 400 == 0)

/-- Number of days in month `m` of year `y`. -/
def daysInMonth (y m : Nat) : Nat :=
  if m = 2 then (if isLeap y then 29 else 28)
  else if m = 4 ∨ m = 6 ∨ m = 9 ∨ m = 11 then 30
  else 31

/-- Validity check of a date triple: exactly the dates `datetime.date(y, m, d)`
accepts (and hence the strings `strptime(s, "%Y-%m-%d")` parses). -/
def validDate (dt : RawDate) : Bool :=
  1 ≤ dt.y && dt.y ≤ 9999 && 1 ≤ dt.m && dt.m ≤ 12 && 1 ≤ dt.d &&
    dt.d ≤ daysInMonth dt.y dt.m

/-- Days contributed by the months strictly before `m` in year `y`. -/
def daysBeforeMonth (y m : Nat) : Nat :=
  (List.range (m - 1)).foldl (fun a i => a + daysInMonth y (i + 1)) 0

/-- Day number of a date (rata die): injective on valid dates, successor =
next day, so it models Python date ordering and `timedelta` arithmetic. -/
def rataDie (dt : RawDate) : Nat :=
  365 * (dt.y - 1) + (dt.y - 1) / 4 - (dt.y - 1) / 100 + (dt.y - 1) / 400 +
    daysBeforeMonth dt.y dt.m + dt.d

/-- A reminder record, with the fields documented in `src/main.py` lines 26-36.
`repeats` embeds the `"repeat"` key (a Lean keyword forces the rename);
it stays a `String` because the code compares it against `"once"` /
`"yearly"` literally. -/
structure Reminder where
  id : Int
  guild_id : Option Int
  channel_id : Int
  author_id : Int
  name : String
  date : RawDate
  repeats : String
  days_before : Int
deriving DecidableEq, Repr

/-! ## Startup migration (`src/main.py` lines 55-67)

Only the `"id"` key is read or written by the migration loop, so it is
modelled on the list of optional ids of the loaded records (`none` for a
legacy record lacking `"id"`). -/

/-- The body of the `for r in reminders` loop: threads `current_max_id`,
assigns `current_max_id + 1` to a record without an id, otherwise folds the
record's id into the running maximum.  Returns the ids after migration and
the final `current_max_id`. -/
def migrateAux : List (Option Int) → Int → List Int × Int
  | [], cur => ([], cur)
  | none :: rest, cur =>
      let out := migrateAux rest (cur + 1)
      ((cur + 1) :: out.1, out.2)
  | some i :: rest, cur =>
      let out := migrateAux rest (max cur i)
      (i :: out.1, out.2)

/-- Lines 56-67: if the loaded list is empty, `next_id = 1`; otherwise run the
migration loop from `current_max_id = 0` and set `next_id = current_max_id + 1`.
Returns (ids after migration, `next_id`). -/
def migrate (recs : List (Option Int)) : List Int × Int :=
  if recs.isEmpty then ([], 1)
  else
    let out := migrateAux recs 0
    (out.1, out.2 + 1)


/-! ## The shared store

The global mutable `reminders` list plus the `reminders.json` file written by
`save_reminders`.  `mem` is the in-memory list, `disk` the persisted one; a
handler that calls `save_reminders(reminders)` sets `disk := mem`. -/

structure Store where
  mem : List Reminder
  disk : List Reminder
deriving DecidableEq, Repr

/-! ## `/reminder` — create (`src/main.py` lines 103-159) -/

/-- Outcome reported back through `interaction.response.send_message`. -/
inductive CreateResult
  | badDate
  | badDays
  | created (rem : Reminder)
deriving DecidableEq, Repr

/-- The `slash_reminder` handler.  In order: parse `date_str` (reject with the
date-format message on `ValueError`), reject `days_before < 0`, then build the
record from the supplied fields with id `next_id`, append it, persist, report
it back, and finally increment the global `next_id`.  Returns
(result, store, new `next_id`). -/
def slash_reminder (st : Store) (next_id : Int) (guild_id : Option Int)
    (channel_id author_id : Int) (date_str : RawDate) (repeat_value : String)
    (days_before : Int) (name : String) : CreateResult × Store × Int :=
  if ¬ validDate date_str then (.badDate, st, next_id)
  else if days_before < 0 then (.badDays, st, next_id)
  else
    let rem : Reminder :=
      { id := next_id, guild_id := guild_id, channel_id := channel_id,
        author_id := author_id, name := name, date := date_str,
        repeats := repeat_value, days_before := days_before }
    (.created rem, ⟨st.mem ++ [rem], st.mem ++ [rem]⟩, next_id + 1)

/-! ## `/myreminders` — list (`src/main.py` lines 162-183) -/

/-- The sort key of line 175, `key=lambda x: (x.get("date", ""), x.get("id", 0))`:
the ISO `YYYY-MM-DD` strings of valid dates compare lexicographically exactly
as the (y, m, d) component triples do, so the tuple comparison is the
lexicographic order on (y, m, d, id). -/
def remLE (a b : Reminder) : Bool :=
  if a.date.y ≠ b.date.y then a.date.y < b.date.y
  else if a.date.m ≠ b.date.m then a.date.m < b.date.m
  else if a.date.d ≠ b.date.d then a.date.d < b.date.d
  else a.id ≤ b.id

/-- The `slash_myreminders` handler (read-only on the store): filter the
records whose `author_id` is the invoking user, sorted ascending by
`(date, id)`.  Python's `sorted` is modelled by `List.mergeSort` (both are
stable mergesorts). -/
def slash_myreminders (rems : List Reminder) (user_id : Int) : List Reminder :=
  (rems.filter (fun r => r.author_id == user_id)).mergeSort remLE

/-! ## `/delreminder` — delete (`src/main.py` lines 186-215) -/

inductive DelOutcome
  | success
  | not_found
  | forbidden
deriving DecidableEq, Repr

/-- `list.remove(x)` on the Python side: drop the first element equal to `x`
(the handler and the loop both pass an element of the list, matched by
structural dict equality). -/
def removeFirst : List Reminder → Reminder → List Reminder
  | [], _ => []
  | r :: rest, t => if r = t then rest else r :: removeFirst rest t

/-- The `slash_delreminder` handler: linear scan for the first record with the
requested id (`not_found` if none), ownership check against the invoking user
(`forbidden` on mismatch), then `reminders.remove(found)` and
`save_reminders(reminders)`. -/
def slash_delreminder (st : Store) (reminder_id user_id : Int) :
    DelOutcome × Store :=
  match st.mem.find? (fun r => r.id == reminder_id) with
  | none => (.not_found, st)
  | some found =>
      if found.author_id != user_id then (.forbidden, st)
      else
        let mem := removeFirst st.mem found
        (.success, ⟨mem, mem⟩)

/-! ## The scheduler pass (`src/main.py` lines 220-284, `reminder_loop`) -/

inductive SendKind
  | early
  | dayOf
deriving DecidableEq, Repr

/-- One `channel.send` event: the reminder it belongs to, whether it is the
early or the day-of message, and the effective date quoted in the text
(`event_date` for `once`, `this_year_date` for `yearly`). -/
structure Sent where
  rem : Reminder
  kind : SendKind
  eff : RawDate
deriving DecidableEq, Repr

/-- The external world of one pass: whether `bot.get_channel(channel_id)`
resolves, and whether a given `await channel.send(...)` succeeds (when it
does not, discord.py raises, and nothing catches the exception inside the
loop body). -/
structure Env where
  hasChannel : Int → Bool
  sendOk : Sent → Bool

/-- Outcome of handling one reminder inside the `for rem in reminders` loop. -/
inductive StepResult
  | skip
  | ran (sent : List Sent) (markRemove : Bool)
  | crash (sent : List Sent)
deriving DecidableEq, Repr

/-- Perform the due sends in program order; a failing send raises, so it
delivers nothing itself and stops the remaining sends.  Returns the messages
actually delivered and whether an exception was raised. -/
def attemptSends (env : Env) : List Sent → List Sent × Bool
  | [] => ([], false)
  | s :: rest =>
      if env.sendOk s then
        let out := attemptSends env rest
        (s :: out.1, out.2)
      else ([], true)

/-- The early-date computation `eff - timedelta(days=days_before)` (lines
246 and 266) runs whenever `days_before > 0`, before any comparison, and
raises an uncaught `OverflowError` when the result falls before
`date.min` = 0001-01-01, i.e. when the resulting ordinal
`rataDie eff - days_before` is below 1.  (A `days_before` beyond the
`timedelta` day bound also raises, and satisfies this same condition, since
every valid date has ordinal at most 3652059.)  Subtraction cannot
overflow upward because `days_before > 0`. -/
def earlyUnderflow (eff : RawDate) (rem : Reminder) : Bool :=
  rem.days_before > 0 && ((rataDie eff : Int) - rem.days_before < 1)

/-- The messages due for a reminder against an effective date `eff` (both the
`once` and the `yearly` branch run the same two guards in this order): an
early message when `days_before > 0` and
`today == eff - timedelta(days=days_before)`, then a day-of message when
`today == eff`.  Evaluated only when `earlyUnderflow` is false, where the
subtraction yields a representable date and the ordinal (`rataDie`)
equation is exactly Python's date comparison. -/
def dueSends (today eff : RawDate) (rem : Reminder) : List Sent :=
  (if rem.days_before > 0 &&
      ((rataDie today : Int) == (rataDie eff : Int) - rem.days_before)
   then [⟨rem, .early, eff⟩] else []) ++
  (if today == eff then [⟨rem, .dayOf, eff⟩] else [])

/-- The `repeat == "once"` branch (lines 243-258): the effective date is the
stored `event_date`.  The `early_day` computation of line 246 comes first:
on overflow it raises out of the loop body before any send or marking.
Otherwise `to_remove.append(rem)` runs only after the day-of send returned,
so a raised send leaves the reminder unmarked. -/
def evalOnce (env : Env) (today : RawDate) (rem : Reminder) : StepResult :=
  if earlyUnderflow rem.date rem then .crash []
  else
    let out := attemptSends env (dueSends today rem.date rem)
    if out.2 then .crash out.1 else .ran out.1 (today == rem.date)

/-- The `repeat == "yearly"` branch (lines 261-277): line 262 constructs
`date(today.year, event_date.month, event_date.day)` with no surrounding
`try`, so an invalid combination (Feb 29 in a non-leap year) raises
`ValueError` out of the loop body; next, the `early_day` computation of
line 266 can raise `OverflowError`, equally uncaught.  Otherwise: early and
day-of messages against `this_year_date`, and no removal marking. -/
def evalYearly (env : Env) (today : RawDate) (rem : Reminder) : StepResult :=
  let tyd : RawDate := ⟨today.y, rem.date.m, rem.date.d⟩
  if ¬ validDate tyd then .crash []
  else if earlyUnderflow tyd rem then .crash []
  else
    let out := attemptSends env (dueSends today tyd rem)
    if out.2 then .crash out.1 else .ran out.1 false

/-- The body of `for rem in reminders` for one reminder, lines 225-277:
`strptime` failure on the stored date is caught and `continue`s (lines
226-229); an unresolvable channel `continue`s (lines 235-237); then the
branch on `rem.get("repeat", "once")` — a value that is neither `"once"`
nor `"yearly"` matches no branch and does nothing. -/
def evalReminder (env : Env) (today : RawDate) (rem : Reminder) : StepResult :=
  if ¬ validDate rem.date then .skip
  else if ¬ env.hasChannel rem.channel_id then .skip
  else if rem.repeats = "once" then evalOnce env today rem
  else if rem.repeats = "yearly" then evalYearly env today rem
  else .ran [] false

/-- Accumulated outcome of the `for` loop: delivered messages in order, the
`to_remove` list in order, and whether an uncaught exception aborted the
iteration. -/
structure PassAcc where
  sent : List Sent
  toRemove : List Reminder
  crashed : Bool
deriving DecidableEq, Repr

/-- The `for rem in reminders` loop.  A crash stops the iteration: earlier
results stand, later reminders are not evaluated. -/
def passAux (env : Env) (today : RawDate) : List Reminder → PassAcc
  | [] => ⟨[], [], false⟩
  | r :: rest =>
      match evalReminder env today r with
      | .skip => passAux env today rest
      | .crash s => ⟨s, [], true⟩
      | .ran s mark =>
          let out := passAux env today rest
          ⟨s ++ out.sent, (if mark then [r] else []) ++ out.toRemove, out.crashed⟩

/-- Result of one tick of `reminder_loop`. -/
structure PassResult where
  sent : List Sent
  store : List Reminder
  crashed : Bool
deriving DecidableEq, Repr

/-- One full pass, lines 220-284: snapshot `today`, run the loop, and — only
when the loop body finished — execute lines 280-284, removing each `to_remove`
entry from the list (`list.remove`, first structural match) and saving.  If
the loop body raised, the removal block is never reached and the store is
unchanged. -/
def runPass (env : Env) (today : RawDate) (rems : List Reminder) : PassResult :=
  if (passAux env today rems).crashed then
    ⟨(passAux env today rems).sent, rems, true⟩
  else
    ⟨(passAux env today rems).sent,
     (passAux env today rems).toRemove.foldl removeFirst rems, false⟩

/-! ## Spec-side date-matching definitions (for the refinement claim C5)

These three definitions follow the wording of spec §4.3 (the Date-Matching
Engine contract), to be compared with the behaviour of `runPass`. -/

/-- Spec §4.3 steps 1-2: `target_date` unmodified for `once`; for `yearly`,
`target_date` with its year replaced by `today`'s year. -/
def spec_effective_date (today : RawDate) (rem : Reminder) : RawDate :=
  if rem.repeats = "yearly" then ⟨today.y, rem.date.m, rem.date.d⟩ else rem.date

/-- Spec §4.3 step 3: `day_of_due = (today == effective_date)`. -/
def spec_day_of_due (today : RawDate) (rem : Reminder) : Bool :=
  today == spec_effective_date today rem

/-- Spec §4.3 step 4:
`early_due = (lead_days > 0) AND (today == effective_date - lead_days days)`. -/
def spec_early_due (today : RawDate) (rem : Reminder) : Bool :=
  rem.days_before > 0 &&
    ((rataDie today : Int) ==
      (rataDie (spec_effective_date today rem) : Int) - rem.days_before)

/-! ## Concrete instances used by the witnesses and counterexamples -/

/-- Environment in which every channel resolves and every send succeeds. -/
def envAll : Env := ⟨fun _ => true, fun _ => true⟩

/-- Environment in which no channel resolves (`bot.get_channel` returns
`None` for every id). -/
def envNoChan : Env := ⟨fun _ => false, fun _ => true⟩

/-- Environment in which every channel resolves but any send for the reminder
with id 1 raises (models a discord `HTTPException` from `channel.send`). -/
def envFailOne : Env := ⟨fun _ => true, fun s => s.rem.id != 1⟩

/-- Scenario A of spec §8: `{target_date=2025-12-31, recurrence=once,
lead_days=5}`. -/
def remOnceA : Reminder :=
  ⟨1, none, 10, 100, "party", ⟨2025, 12, 31⟩, "once", 5⟩

/-- Scenario B of spec §8: `{target_date=2024-02-29, recurrence=yearly,
lead_days=0}`. -/
def remFeb29 : Reminder :=
  ⟨2, none, 10, 100, "bday", ⟨2024, 2, 29⟩, "yearly", 0⟩

/-- A `once` reminder due 2025-12-31, id 1, whose send `envFailOne` fails. -/
def remFailA : Reminder :=
  ⟨1, none, 10, 100, "a", ⟨2025, 12, 31⟩, "once", 0⟩

/-- A deliverable `once` reminder due 2025-12-31, listed after `remFailA`. -/
def remNextB : Reminder :=
  ⟨2, none, 11, 101, "b", ⟨2025, 12, 31⟩, "once", 0⟩

/-- A yearly reminder used by the C6 witness. -/
def remYearlyW : Reminder :=
  ⟨3, none, 10, 100, "anniv", ⟨2020, 6, 15⟩, "yearly", 2⟩

/-- Scenario C of spec §8: a reminder with id 7 owned by user 200. -/
def rem7 : Reminder :=
  ⟨7, none, 10, 200, "x", ⟨2025, 1, 1⟩, "once", 0⟩

/-- Store holding only `rem7`, in memory and on disk. -/
def store7 : Store := ⟨[rem7], [rem7]⟩

/-- The empty store. -/
def storeEmpty : Store := ⟨[], []⟩

/-- Owner-100 reminder with the later date but the smaller id. -/
def remLater : Reminder :=
  ⟨1, none, 10, 100, "later", ⟨2025, 6, 1⟩, "once", 0⟩

/-- Owner-100 reminder with the earlier date but the larger id. -/
def remSooner : Reminder :=
  ⟨2, none, 10, 100, "sooner", ⟨2025, 1, 1⟩, "once", 0⟩

/-- A `once` reminder due 2025-12-31 whose `days_before` of 800000 pushes the
early date before year 1 (ordinal of 2025-12-31 is below 800000). -/
def remBigLead : Reminder :=
  ⟨4, none, 10, 100, "big", ⟨2025, 12, 31⟩, "once", 800000⟩

/-! ## Claim theorems: concrete evaluations (C1, C2) and counterexamples -/

/-- C1 (code bug): evaluating the stored reminder
`{target_date=2024-02-29, recurrence=yearly, lead_days=0}` on 2025-02-28 and
on 2025-03-01, with its channel resolvable, does NOT skip the day-of check:
line 262 `date(today.year, event_date.month, event_date.day)` raises
`ValueError` (2025 is not a leap year) with no surrounding `try`, so the
scheduler pass aborts — contradicting the claim that the pass must not
fail and must yield `day_of_due = false` on both dates.  In a leap year the
same reminder is evaluated normally. -/
theorem feb29_yearly_pass_crash :
    remFeb29.repeats = "yearly" ∧ remFeb29.date = ⟨2024, 2, 29⟩ ∧
    remFeb29.days_before = 0 ∧
    envAll.hasChannel remFeb29.channel_id = true ∧
    (runPass envAll ⟨2025, 2, 28⟩ [remFeb29]).crashed = true ∧
    (runPass envAll ⟨2025, 3, 1⟩ [remFeb29]).crashed = true ∧
    (runPass envAll ⟨2028, 2, 29⟩ [remFeb29]).crashed = false := by
  decide

/-- C2 (code bug): the startup migration of lines 56-67 can duplicate an id.
On the loaded state `[record without id, record with id 1]` the loop assigns
`current_max_id + 1 = 1` to the first record, which collides with the
explicit id 1 of the second: after migration the ids are `[1, 1]`, not
pairwise distinct. -/
theorem migration_duplicate_ids :
    (migrate [none, some 1]).1 = [1, 1] ∧
    ¬ (migrate [none, some 1]).1.Nodup := by
  decide

/-- C3 counterexample: a `once` reminder whose `day_of_due` condition holds
(today equals its target date 2025-12-31) is NOT removed by the end of a
pass in which its channel does not resolve — the pass completes without
crashing and leaves the store unchanged, refuting the claim as stated for
every pass. -/
theorem once_due_unresolved_channel_kept :
    remOnceA.repeats = "once" ∧ remOnceA.date = ⟨2025, 12, 31⟩ ∧
    (runPass envNoChan ⟨2025, 12, 31⟩ [remOnceA]).crashed = false ∧
    (runPass envNoChan ⟨2025, 12, 31⟩ [remOnceA]).store = [remOnceA] := by
  decide

/-- C4 counterexample: a delivery failure is fatal to the pass.  With
`remFailA` (once, due today, channel resolvable, send raises) followed by
`remNextB` (once, due today, deliverable), the pass aborts on the failed
send: nothing is delivered — in particular `remNextB` is never evaluated —
and `remFailA` is not removed, refuting both "evaluation continues with the
next reminder" and "a once reminder whose day-of delivery failed is still
removed". -/
theorem send_failure_aborts_pass :
    remFailA.repeats = "once" ∧ remFailA.date = ⟨2025, 12, 31⟩ ∧
    envFailOne.hasChannel remNextB.channel_id = true ∧
    envFailOne.sendOk ⟨remNextB, .dayOf, remNextB.date⟩ = true ∧
    (runPass envFailOne ⟨2025, 12, 31⟩ [remFailA, remNextB]).crashed = true ∧
    (runPass envFailOne ⟨2025, 12, 31⟩ [remFailA, remNextB]).sent = [] ∧
    (runPass envFailOne ⟨2025, 12, 31⟩ [remFailA, remNextB]).store =
      [remFailA, remNextB] := by
  decide

/-! ## Helper lemmas about sends and list surgery -/

/-- When every send succeeds, `attemptSends` delivers the whole list and
raises nothing. -/
theorem attemptSends_all_ok (env : Env) (l : List Sent)
    (h : ∀ s, env.sendOk s = true) : attemptSends env l = (l, false) := by
  induction l with
  | nil => rfl
  | cons s rest ih => simp [attemptSends, h s, ih]

/-- Delivered messages come from the attempted list. -/
theorem mem_attemptSends {env : Env} {l : List Sent} {x : Sent}
    (h : x ∈ (attemptSends env l).1) : x ∈ l := by
  induction l with
  | nil => simpa [attemptSends] using h
  | cons s rest ih =>
      by_cases hs : env.sendOk s = true
      · simp only [attemptSends, hs, if_pos] at h
        rcases List.mem_cons.mp h with h | h
        · exact h ▸ List.mem_cons_self s rest
        · exact List.mem_cons_of_mem s (ih h)
      · simp [attemptSends, hs] at h

/-- Every message built by `dueSends` belongs to the evaluated reminder and
quotes the effective date. -/
theorem mem_dueSends {today eff : RawDate} {rem : Reminder} {x : Sent}
    (h : x ∈ dueSends today eff rem) : x.rem = rem ∧ x.eff = eff := by
  unfold dueSends at h
  rcases List.mem_append.mp h with h | h <;> split at h <;> simp_all

/-- `removeFirst` deletes exactly one occurrence of its target (none when the
target is absent, with truncated subtraction covering that case). -/
theorem count_removeFirst (l : List Reminder) (t x : Reminder) :
    (removeFirst l t).count x = l.count x - (if t = x then 1 else 0) := by
  induction l with
  | nil => simp [removeFirst]
  | cons r rest ih =>
      rw [removeFirst]
      by_cases hr : r = t
      · subst hr
        rw [if_pos rfl]
        simp only [List.count_cons, beq_iff_eq]
        split_ifs <;> first | omega | simp_all
      · rw [if_neg hr]
        simp only [List.count_cons, beq_iff_eq, ih]
        split_ifs <;> first | omega | simp_all

/-- Elements of `removeFirst l t` come from `l`. -/
theorem mem_of_mem_removeFirst {l : List Reminder} {t x : Reminder}
    (h : x ∈ removeFirst l t) : x ∈ l := by
  induction l with
  | nil => simpa [removeFirst] using h
  | cons r rest ih =>
      by_cases hr : r = t
      · rw [removeFirst, if_pos hr] at h
        exact List.mem_cons_of_mem r h
      · rw [removeFirst, if_neg hr] at h
        rcases List.mem_cons.mp h with h | h
        · exact h ▸ List.mem_cons_self r rest
        · exact List.mem_cons_of_mem r (ih h)

/-- Counting through the batched removal loop of lines 280-284. -/
theorem count_foldl_removeFirst (ts : List Reminder) (l : List Reminder)
    (x : Reminder) :
    (ts.foldl removeFirst l).count x = l.count x - ts.count x := by
  induction ts generalizing l with
  | nil => simp
  | cons t ts ih =>
      rw [List.foldl_cons, ih, count_removeFirst, List.count_cons]
      simp only [beq_iff_eq]
      split_ifs <;> first | omega | simp_all

/-- Elements surviving the batched removal loop come from the original list. -/
theorem mem_of_mem_foldl_removeFirst {ts l : List Reminder} {x : Reminder}
    (h : x ∈ ts.foldl removeFirst l) : x ∈ l := by
  induction ts generalizing l with
  | nil => simpa using h
  | cons t ts ih => exact mem_of_mem_removeFirst (ih (by simpa using h))

/-- Removing targets all different from the head leaves the head in place. -/
theorem foldl_removeFirst_cons_of_ne {ts l : List Reminder} {r : Reminder}
    (h : ∀ t ∈ ts, t ≠ r) :
    ts.foldl removeFirst (r :: l) = r :: ts.foldl removeFirst l := by
  induction ts generalizing l with
  | nil => rfl
  | cons t ts ih =>
      have hrt : r ≠ t := fun he => h t (List.mem_cons_self t ts) he.symm
      rw [List.foldl_cons, List.foldl_cons, removeFirst, if_neg hrt]
      exact ih fun t ht => h t (List.mem_cons_of_mem _ ht)

/-! ## Helper lemmas about the evaluation of one reminder -/

/-- A reminder whose channel does not resolve is skipped (lines 235-237),
whatever else holds. -/
theorem eval_skip_of_no_channel {env : Env} {today : RawDate} {rem : Reminder}
    (hch : env.hasChannel rem.channel_id = false) :
    evalReminder env today rem = .skip := by
  unfold evalReminder
  by_cases hv : validDate rem.date <;> simp [hv, hch]

/-- A reminder that was not skipped parsed its date and resolved its
channel. -/
theorem eval_not_skip_channel {env : Env} {today : RawDate} {rem : Reminder}
    (h : evalReminder env today rem ≠ .skip) :
    validDate rem.date = true ∧ env.hasChannel rem.channel_id = true := by
  unfold evalReminder at h
  by_cases hv : validDate rem.date
  · by_cases hc : env.hasChannel rem.channel_id
    · exact ⟨hv, hc⟩
    · simp [hv, hc] at h
  · simp [hv] at h

/-- Only the `once` branch marks for removal, and only on its day-of date:
inversion of `evalReminder ... = .ran s true`. -/
theorem eval_ran_true {env : Env} {today : RawDate} {rem : Reminder}
    {s : List Sent} (h : evalReminder env today rem = .ran s true) :
    validDate rem.date = true ∧ env.hasChannel rem.channel_id = true ∧
    rem.repeats = "once" ∧ today = rem.date := by
  unfold evalReminder at h
  by_cases hv : validDate rem.date
  · by_cases hc : env.hasChannel rem.channel_id
    · by_cases ho : rem.repeats = "once"
      · refine ⟨hv, hc, ho, ?_⟩
        simp only [hv, hc, ho, not_true, if_false, if_true, ite_true,
          ite_false, not_false_iff] at h
        unfold evalOnce at h
        by_cases huf : earlyUnderflow rem.date rem = true
        · simp [huf] at h
        · rw [Bool.not_eq_true] at huf
          simp only [huf, Bool.false_eq_true, if_false] at h
          by_cases hout : (attemptSends env (dueSends today rem.date rem)).2 = true
          · simp [hout] at h
          · rw [Bool.not_eq_true] at hout
            simp only [hout, Bool.false_eq_true, if_false] at h
            injection h with h1 h2
            exact eq_of_beq h2
      · by_cases hy : rem.repeats = "yearly"
        · simp only [hv, hc, ho, hy, not_true, if_false, if_true, ite_true,
            ite_false, not_false_iff] at h
          unfold evalYearly at h
          by_cases hty : validDate ⟨today.y, rem.date.m, rem.date.d⟩ = true
          · by_cases huf : earlyUnderflow ⟨today.y, rem.date.m, rem.date.d⟩
                rem = true
            · simp [hty, huf] at h
            · rw [Bool.not_eq_true] at huf
              by_cases hout : (attemptSends env
                  (dueSends today ⟨today.y, rem.date.m, rem.date.d⟩ rem)).2 = true
              · simp [hty, huf, hout] at h
              · rw [Bool.not_eq_true] at hout
                simp [hty, huf, hout] at h
          · simp [hty] at h
        · simp [hv, hc, ho, hy] at h
    · simp [hv, hc] at h
  · simp [hv] at h

/-- On its day-of date, a parseable `once` reminder with a resolved channel
either raises during a send or finishes marked for removal. -/
theorem eval_once_due_cases {env : Env} {today : RawDate} {rem : Reminder}
    (hv : validDate rem.date = true) (hc : env.hasChannel rem.channel_id = true)
    (ho : rem.repeats = "once") (hd : today = rem.date) :
    (∃ s, evalReminder env today rem = .crash s) ∨
    (∃ s, evalReminder env today rem = .ran s true) := by
  unfold evalReminder
  simp only [hv, hc, ho, not_true, ite_true, ite_false, if_true, if_false,
    not_false_iff]
  unfold evalOnce
  by_cases huf : earlyUnderflow rem.date rem = true
  · exact .inl ⟨[], by simp [huf]⟩
  · rw [Bool.not_eq_true] at huf
    by_cases hout : (attemptSends env (dueSends today rem.date rem)).2 = true
    · exact .inl ⟨(attemptSends env (dueSends today rem.date rem)).1,
        by simp [huf, hout]⟩
    · rw [Bool.not_eq_true] at hout
      refine .inr ⟨(attemptSends env (dueSends today rem.date rem)).1, ?_⟩
      have hbeq : (today == rem.date) = true := beq_iff_eq.mpr hd
      simp [huf, hout, hbeq]

/-- Messages produced by the `once` branch belong to the evaluated
reminder. -/
theorem evalOnce_sent {env : Env} {today : RawDate} {rem : Reminder}
    {s : List Sent} {m : Bool}
    (h : evalOnce env today rem = .ran s m ∨ evalOnce env today rem = .crash s) :
    ∀ x ∈ s, x.rem = rem := by
  intro x hx
  unfold evalOnce at h
  by_cases huf : earlyUnderflow rem.date rem = true
  · exfalso
    rcases h with h | h
    · simp [huf] at h
    · simp only [huf, if_true, ite_true] at h
      injection h with h1
      rw [← h1] at hx
      cases hx
  · rw [Bool.not_eq_true] at huf
    have hs : x ∈ (attemptSends env (dueSends today rem.date rem)).1 := by
      by_cases hout : (attemptSends env (dueSends today rem.date rem)).2 = true
      · rcases h with h | h
        · simp [huf, hout] at h
        · simp only [huf, hout, Bool.false_eq_true, if_false, ite_false,
            if_true, ite_true] at h
          injection h with h1
          exact h1 ▸ hx
      · rw [Bool.not_eq_true] at hout
        rcases h with h | h
        · simp only [huf, hout, Bool.false_eq_true, if_false, ite_false] at h
          injection h with h1 h2
          exact h1 ▸ hx
        · simp [huf, hout] at h
    exact (mem_dueSends (mem_attemptSends hs)).1

/-- Messages produced by the `yearly` branch belong to the evaluated
reminder. -/
theorem evalYearly_sent {env : Env} {today : RawDate} {rem : Reminder}
    {s : List Sent} {m : Bool}
    (h : evalYearly env today rem = .ran s m ∨ evalYearly env today rem = .crash s) :
    ∀ x ∈ s, x.rem = rem := by
  intro x hx
  unfold evalYearly at h
  by_cases hty : validDate ⟨today.y, rem.date.m, rem.date.d⟩ = true
  · by_cases huf : earlyUnderflow ⟨today.y, rem.date.m, rem.date.d⟩ rem = true
    · exfalso
      rcases h with h | h
      · simp [hty, huf] at h
      · simp only [hty, huf, not_true, if_false, ite_false, if_true, ite_true,
          not_false_iff] at h
        injection h with h1
        rw [← h1] at hx
        cases hx
    · rw [Bool.not_eq_true] at huf
      have hs : x ∈ (attemptSends env
          (dueSends today ⟨today.y, rem.date.m, rem.date.d⟩ rem)).1 := by
        by_cases hout : (attemptSends env
            (dueSends today ⟨today.y, rem.date.m, rem.date.d⟩ rem)).2 = true
        · rcases h with h | h
          · simp [hty, huf, hout] at h
          · simp only [hty, huf, hout, not_true, if_false, ite_false, if_true,
              ite_true, not_false_iff, Bool.false_eq_true] at h
            injection h with h1
            exact h1 ▸ hx
        · rw [Bool.not_eq_true] at hout
          rcases h with h | h
          · simp only [hty, huf, hout, not_true, if_false, ite_false, if_true,
              ite_true, not_false_iff, Bool.false_eq_true] at h
            injection h with h1 h2
            exact h1 ▸ hx
          · simp [hty, huf, hout] at h
      exact (mem_dueSends (mem_attemptSends hs)).1
  · rcases h with h | h
    · simp [hty] at h
    · simp only [hty, not_false_iff, if_true, ite_true] at h
      injection h with h1
      rw [← h1] at hx
      cases hx

/-- Every message of a non-skipped evaluation belongs to the evaluated
reminder. -/
theorem eval_sent_rem {env : Env} {today : RawDate} {rem : Reminder}
    {s : List Sent} {m : Bool}
    (h : evalReminder env today rem = .ran s m ∨
      evalReminder env today rem = .crash s) :
    ∀ x ∈ s, x.rem = rem := by
  unfold evalReminder at h
  by_cases hv : validDate rem.date
  · by_cases hc : env.hasChannel rem.channel_id
    · by_cases ho : rem.repeats = "once"
      · have hh : evalOnce env today rem = .ran s m ∨
            evalOnce env today rem = .crash s := by
          simpa [hv, hc, ho] using h
        exact evalOnce_sent hh
      · by_cases hy : rem.repeats = "yearly"
        · have hh : evalYearly env today rem = .ran s m ∨
              evalYearly env today rem = .crash s := by
            simpa [hv, hc, ho, hy] using h
          exact evalYearly_sent hh
        · rcases h with h | h
          · simp only [hv, hc, ho, hy, not_true, if_false, ite_false, if_true,
              ite_true, not_false_iff] at h
            injection h with h1 h2
            intro x hx
            rw [← h1] at hx
            cases hx
          · simp [hv, hc, ho, hy] at h
    · rcases h with h | h <;> simp [hv, hc] at h
  · rcases h with h | h <;> simp [hv] at h

/-! ## Helper lemmas about the pass -/

/-- Members of the `to_remove` list were evaluated to a marked run. -/
theorem toRemove_eval {env : Env} {today : RawDate} :
    ∀ {rems : List Reminder} {t : Reminder},
      t ∈ (passAux env today rems).toRemove →
      ∃ s, evalReminder env today t = .ran s true := by
  intro rems
  induction rems with
  | nil => intro t ht; simp [passAux] at ht
  | cons r rest ih =>
      intro t ht
      cases heval : evalReminder env today r with
      | skip =>
          simp only [passAux, heval] at ht
          exact ih ht
      | crash s => simp [passAux, heval] at ht
      | ran s mark =>
          simp only [passAux, heval] at ht
          rcases List.mem_append.mp ht with h | h
          · cases mark
            · simp at h
            · simp at h
              exact ⟨s, h ▸ heval⟩
          · exact ih h

/-- An uncaught exception from any listed reminder makes the whole pass
crash. -/
theorem passAux_crashed_of_crash {env : Env} {today : RawDate} :
    ∀ {rems : List Reminder} {rem : Reminder} {s : List Sent},
      rem ∈ rems → evalReminder env today rem = .crash s →
      (passAux env today rems).crashed = true := by
  intro rems
  induction rems with
  | nil => intro rem s h; cases h
  | cons r rest ih =>
      intro rem s hmem hcrash
      cases heval : evalReminder env today r with
      | skip =>
          simp only [passAux, heval]
          rcases List.mem_cons.mp hmem with rfl | hmem'
          · rw [heval] at hcrash; cases hcrash
          · exact ih hmem' hcrash
      | crash s2 => simp [passAux, heval]
      | ran s2 mark =>
          simp only [passAux, heval]
          rcases List.mem_cons.mp hmem with rfl | hmem'
          · rw [heval] at hcrash; cases hcrash
          · exact ih hmem' hcrash

/-- In a completed pass, a reminder value that evaluates to a marked run is
appended to `to_remove` at every one of its occurrences. -/
theorem count_toRemove_ge {env : Env} {today : RawDate} :
    ∀ {rems : List Reminder} {rem : Reminder} {s : List Sent},
      (passAux env today rems).crashed = false →
      evalReminder env today rem = .ran s true →
      rems.count rem ≤ (passAux env today rems).toRemove.count rem := by
  intro rems
  induction rems with
  | nil => intro rem s _ _; simp [passAux]
  | cons r rest ih =>
      intro rem s hnc hran
      cases heval : evalReminder env today r with
      | skip =>
          simp only [passAux, heval] at hnc ⊢
          by_cases hr : r = rem
          · subst hr; rw [heval] at hran; cases hran
          · have hne : (r == rem) = false := by
              rw [beq_eq_false_iff_ne]; exact hr
            simp only [List.count_cons, hne, Bool.false_eq_true, if_false]
            simpa using ih hnc hran
      | crash s2 => simp [passAux, heval] at hnc
      | ran s2 mark =>
          simp only [passAux, heval] at hnc ⊢
          have hrec := ih hnc hran
          by_cases hr : r = rem
          · subst hr
            rw [heval] at hran
            injection hran with h1 h2
            subst h2
            simp only [if_true, ite_true, List.count_cons, List.count_append,
              List.count_singleton, beq_self_eq_true]
            omega
          · have hne : (r == rem) = false := by
              rw [beq_eq_false_iff_ne]; exact hr
            simp only [List.count_cons, List.count_append, hne,
              Bool.false_eq_true, if_false]
            cases mark
            · simpa using hrec
            · simp only [ite_true, List.count_singleton, hne,
                Bool.false_eq_true, if_false]
              omega

/-- Every message delivered during the loop went to a resolved channel of its
own reminder. -/
theorem sent_channel {env : Env} {today : RawDate} :
    ∀ {rems : List Reminder} {x : Sent},
      x ∈ (passAux env today rems).sent →
      env.hasChannel x.rem.channel_id = true := by
  intro rems
  induction rems with
  | nil => intro x hx; simp [passAux] at hx
  | cons r rest ih =>
      intro x hx
      cases heval : evalReminder env today r with
      | skip =>
          simp only [passAux, heval] at hx
          exact ih hx
      | crash s =>
          simp only [passAux, heval] at hx
          have hrem : x.rem = r := eval_sent_rem (m := false) (.inr heval) x hx
          have hns : evalReminder env today r ≠ .skip := by
            rw [heval]; intro hc; cases hc
          rw [hrem]
          exact (eval_not_skip_channel hns).2
      | ran s mark =>
          simp only [passAux, heval] at hx
          rcases List.mem_append.mp hx with h | h
          · have hrem : x.rem = r := eval_sent_rem (.inl heval) x h
            have hns : evalReminder env today r ≠ .skip := by
              rw [heval]; intro hc; cases hc
            rw [hrem]
            exact (eval_not_skip_channel hns).2
          · exact ih h

/-- A skipped head leaves the whole loop accumulator untouched. -/
theorem passAux_cons_skip {env : Env} {today : RawDate} {r : Reminder}
    {rest : List Reminder} (h : evalReminder env today r = .skip) :
    passAux env today (r :: rest) = passAux env today rest := by
  simp [passAux, h]

/-- The delivered messages of a pass are those of the loop. -/
theorem runPass_sent (env : Env) (today : RawDate) (rems : List Reminder) :
    (runPass env today rems).sent = (passAux env today rems).sent := by
  unfold runPass
  split <;> rfl

/-- The crash flag of a pass is that of the loop. -/
theorem runPass_crashed (env : Env) (today : RawDate) (rems : List Reminder) :
    (runPass env today rems).crashed = (passAux env today rems).crashed := by
  unfold runPass
  split <;> simp_all

/-- A crashed pass leaves the store unchanged (lines 280-284 never run). -/
theorem runPass_store_crashed (env : Env) (today : RawDate)
    (rems : List Reminder) (h : (passAux env today rems).crashed = true) :
    (runPass env today rems).store = rems := by
  unfold runPass
  rw [if_pos h]

/-- A completed pass applies the batched removal loop to the store. -/
theorem runPass_store_ok (env : Env) (today : RawDate) (rems : List Reminder)
    (h : (passAux env today rems).crashed = false) :
    (runPass env today rems).store =
      (passAux env today rems).toRemove.foldl removeFirst rems := by
  unfold runPass
  rw [if_neg (by simp [h])]

/-- The scheduler never adds reminders: the store after a pass is a subset of
the store before it. -/
theorem runPass_store_subset {env : Env} {today : RawDate}
    {rems : List Reminder} {x : Reminder}
    (h : x ∈ (runPass env today rems).store) : x ∈ rems := by
  unfold runPass at h
  by_cases hc : (passAux env today rems).crashed = true
  · rwa [if_pos hc] at h
  · rw [Bool.not_eq_true] at hc
    rw [if_neg (by simp [hc])] at h
    exact mem_of_mem_foldl_removeFirst h

/-- A reminder that never enters `to_remove` survives the pass. -/
theorem mem_store_of_count_toRemove_zero {env : Env} {today : RawDate}
    {rems : List Reminder} {rem : Reminder} (hmem : rem ∈ rems)
    (h0 : (passAux env today rems).toRemove.count rem = 0) :
    rem ∈ (runPass env today rems).store := by
  by_cases hc : (passAux env today rems).crashed = true
  · rw [runPass_store_crashed env today rems hc]; exact hmem
  · rw [Bool.not_eq_true] at hc
    rw [runPass_store_ok env today rems hc]
    have hcf := count_foldl_removeFirst (passAux env today rems).toRemove rems rem
    rw [h0, Nat.sub_zero] at hcf
    exact List.count_pos_iff.mp (by rw [hcf]; exact List.count_pos_iff.mpr hmem)

/-! ## Claim theorems: the scheduler pass (C3, C4, C6, C10) -/

/-- C3 (amended): in a pass that completes without an aborting exception, a
`once` reminder whose stored date parses, whose channel resolves, and whose
target date equals today is removed from the store by the end of the pass;
and since a pass never adds reminders, a reminder absent from the store stays
absent through any later pass. -/
theorem once_removed_after_dayof (env : Env) (today : RawDate)
    (rems : List Reminder) (rem : Reminder) (hmem : rem ∈ rems)
    (hrep : rem.repeats = "once") (hval : validDate rem.date = true)
    (hch : env.hasChannel rem.channel_id = true) (hdue : today = rem.date)
    (hok : (runPass env today rems).crashed = false) :
    rem ∉ (runPass env today rems).store ∧
    ∀ env2 today2 rems2, rem ∉ rems2 →
      rem ∉ (runPass env2 today2 rems2).store := by
  refine ⟨?_, fun env2 today2 rems2 habs hmem2 =>
    habs (runPass_store_subset hmem2)⟩
  have hnc : (passAux env today rems).crashed = false := by
    rw [← runPass_crashed]; exact hok
  rcases eval_once_due_cases hval hch hrep hdue with ⟨s, hs⟩ | ⟨s, hs⟩
  · have hcr := passAux_crashed_of_crash hmem hs
    rw [hcr] at hnc; cases hnc
  · have hge := count_toRemove_ge hnc hs
    rw [runPass_store_ok env today rems hnc]
    refine List.count_eq_zero.mp ?_
    rw [count_foldl_removeFirst]
    omega

/-- C3 witness: the Scenario A reminder, due 2025-12-31, deliverable, is gone
from the store after that day's completed pass. -/
theorem once_removed_after_dayof_witness :
    remFailA ∉ (runPass envAll ⟨2025, 12, 31⟩ [remFailA]).store :=
  (once_removed_after_dayof envAll ⟨2025, 12, 31⟩ [remFailA] remFailA
    (by decide) rfl (by decide) rfl rfl (by decide)).1

/-- C6: a `yearly` reminder is never removed by a scheduler pass — `to_remove`
only ever receives reminders whose `repeat` is `"once"` (line 258), and a
crashed pass leaves the store untouched. -/
theorem yearly_never_removed (env : Env) (today : RawDate)
    (rems : List Reminder) (rem : Reminder) (hmem : rem ∈ rems)
    (hy : rem.repeats = "yearly") :
    rem ∈ (runPass env today rems).store := by
  refine mem_store_of_count_toRemove_zero hmem ?_
  rw [List.count_eq_zero]
  intro hmemR
  obtain ⟨s, hs⟩ := toRemove_eval hmemR
  have h := (eval_ran_true hs).2.2.1
  rw [hy] at h
  exact absurd h (by decide)

/-- C6 witness: a yearly reminder survives the pass of its own anniversary. -/
theorem yearly_never_removed_witness :
    remYearlyW ∈ (runPass envAll ⟨2025, 6, 15⟩ [remYearlyW]).store :=
  yearly_never_removed envAll ⟨2025, 6, 15⟩ [remYearlyW] remYearlyW
    (by decide) rfl

/-- C10: a reminder whose channel lookup returns nothing is skipped for the
pass — none of the delivered messages belong to it, and it stays in the
store (even a `once` reminder whose target date is today), so it is
re-evaluated on subsequent ticks. -/
theorem unresolved_channel_skipped (env : Env) (today : RawDate)
    (rems : List Reminder) (rem : Reminder) (hmem : rem ∈ rems)
    (hch : env.hasChannel rem.channel_id = false) :
    rem ∈ (runPass env today rems).store ∧
    ∀ s ∈ (runPass env today rems).sent, s.rem ≠ rem := by
  constructor
  · refine mem_store_of_count_toRemove_zero hmem ?_
    rw [List.count_eq_zero]
    intro hmemR
    obtain ⟨s, hs⟩ := toRemove_eval hmemR
    have h := (eval_ran_true hs).2.1
    rw [hch] at h
    cases h
  · intro s hs hcontra
    rw [runPass_sent] at hs
    have h := sent_channel hs
    rw [hcontra, hch] at h
    cases h

/-- C10 witness: the due `once` reminder with an unresolvable channel is
still in the store after the pass. -/
theorem unresolved_channel_skipped_witness :
    remOnceA ∈ (runPass envNoChan ⟨2025, 12, 31⟩ [remOnceA]).store :=
  (unresolved_channel_skipped envNoChan ⟨2025, 12, 31⟩ [remOnceA] remOnceA
    (by decide) rfl).1

/-- C4 (amended): of the two delivery-failure kinds, only an unresolvable
destination is non-fatal: (1) when `bot.get_channel` returns nothing for a
reminder, the pass behaves exactly as if that reminder were not listed (it
stays in the store, untouched; evaluation continues with the rest); (2) an
error raised by `channel.send` for a day-of message aborts the pass — nothing
further is evaluated, no removal is applied, and the failed `once` reminder
remains in the store. -/
theorem delivery_failure_effects (env : Env) (today : RawDate)
    (rem : Reminder) (rest : List Reminder) :
    (env.hasChannel rem.channel_id = false →
      runPass env today (rem :: rest) =
        ⟨(runPass env today rest).sent, rem :: (runPass env today rest).store,
         (runPass env today rest).crashed⟩) ∧
    (validDate rem.date = true → env.hasChannel rem.channel_id = true →
      rem.repeats = "once" → today = rem.date →
      (rem.days_before > 0 &&
        ((rataDie today : Int) == (rataDie rem.date : Int) - rem.days_before))
        = false →
      env.sendOk ⟨rem, .dayOf, rem.date⟩ = false →
      runPass env today (rem :: rest) = ⟨[], rem :: rest, true⟩) := by
  constructor
  · intro hch
    have hpa : passAux env today (rem :: rest) = passAux env today rest :=
      passAux_cons_skip (eval_skip_of_no_channel hch)
    by_cases hc : (passAux env today rest).crashed = true
    · unfold runPass
      rw [hpa, if_pos hc, if_pos hc]
    · rw [Bool.not_eq_true] at hc
      have hne : ∀ t ∈ (passAux env today rest).toRemove, t ≠ rem := by
        intro t ht he
        obtain ⟨s, hs⟩ := toRemove_eval ht
        have h := (eval_ran_true hs).2.1
        rw [he, hch] at h
        cases h
      unfold runPass
      rw [hpa, if_neg (by simp [hc]), if_neg (by simp [hc]),
        foldl_removeFirst_cons_of_ne hne]
  · intro hv hch ho hd hnearly hfail
    have hds : dueSends today rem.date rem = [⟨rem, .dayOf, rem.date⟩] := by
      unfold dueSends
      rw [hnearly]
      simp [beq_iff_eq.mpr hd]
    have heval : evalReminder env today rem = .crash [] := by
      unfold evalReminder
      simp only [hv, hch, ho, not_true, if_true, if_false, ite_true,
        ite_false, not_false_iff]
      unfold evalOnce
      rw [hds]
      simp [attemptSends, hfail]
    have hpa : passAux env today (rem :: rest) = ⟨[], [], true⟩ := by
      simp [passAux, heval]
    unfold runPass
    rw [hpa]
    simp

/-- C4 witness: the concrete aborted pass of the counterexample follows from
the amended theorem. -/
theorem delivery_failure_effects_witness :
    runPass envFailOne ⟨2025, 12, 31⟩ [remFailA, remNextB] =
      ⟨[], [remFailA, remNextB], true⟩ :=
  (delivery_failure_effects envFailOne ⟨2025, 12, 31⟩ remFailA [remNextB]).2
    (by decide) rfl rfl rfl (by decide) (by decide)

/-- The code's send guards coincide with the spec §4.3 flags once the
effective date is the spec's effective date. -/
theorem dueSends_spec (today : RawDate) (rem : Reminder) :
    dueSends today (spec_effective_date today rem) rem =
      (if spec_early_due today rem = true
       then [⟨rem, .early, spec_effective_date today rem⟩] else []) ++
      (if spec_day_of_due today rem = true
       then [⟨rem, .dayOf, spec_effective_date today rem⟩] else []) := by
  unfold dueSends spec_early_due spec_day_of_due
  rfl

/-- C5 counterexample: a reminder with a large `lead_days` refutes the claim
as stated.  `remBigLead` is `once` with target 2025-12-31 and
`days_before = 800000`; on its own target date, with the channel resolvable
and every send succeeding, the pass crashes (line 246 raises `OverflowError`
computing `event_date - timedelta(days=800000)`, whose result falls before
year 1) and delivers nothing — in particular no day-of notice, although
today equals the effective date. -/
theorem big_lead_pass_crash :
    remBigLead.repeats = "once" ∧ remBigLead.date = ⟨2025, 12, 31⟩ ∧
    remBigLead.days_before = 800000 ∧
    envAll.hasChannel remBigLead.channel_id = true ∧
    (runPass envAll ⟨2025, 12, 31⟩ [remBigLead]).crashed = true ∧
    (runPass envAll ⟨2025, 12, 31⟩ [remBigLead]).sent = [] := by
  decide

/-- C5 (amended): for a reminder whose stored date parses, whose channel
resolves and whose sends all succeed, a pass over it delivers exactly what
spec §4.3 prescribes — an early message iff `early_due` (lead_days > 0 and
today is the effective date minus lead_days days), then a day-of message iff
`day_of_due` (today equals the effective date), both quoting the effective
date: `target_date` itself for `once`, `target_date` with today's year for
`yearly` — provided the effective date is constructible AND, when
lead_days > 0, the early date (effective date minus lead_days days) is
itself representable (not before 0001-01-01); otherwise the pass aborts
with an uncaught `OverflowError` at line 246/266. -/
theorem date_matching_spec (env : Env) (today : RawDate) (rem : Reminder)
    (hval : validDate rem.date = true)
    (hch : env.hasChannel rem.channel_id = true)
    (hsend : ∀ s, env.sendOk s = true)
    (hkind : rem.repeats = "once" ∨ rem.repeats = "yearly")
    (heff : validDate (spec_effective_date today rem) = true)
    (hlead : earlyUnderflow (spec_effective_date today rem) rem = false) :
    (runPass env today [rem]).crashed = false ∧
    (runPass env today [rem]).sent =
      (if spec_early_due today rem = true
       then [⟨rem, .early, spec_effective_date today rem⟩] else []) ++
      (if spec_day_of_due today rem = true
       then [⟨rem, .dayOf, spec_effective_date today rem⟩] else []) := by
  rcases hkind with ho | hy
  · have heffd : spec_effective_date today rem = rem.date := by
      unfold spec_effective_date
      rw [if_neg (by rw [ho]; decide)]
    rw [heffd] at hlead
    have heval : evalReminder env today rem =
        .ran (dueSends today rem.date rem) (today == rem.date) := by
      unfold evalReminder
      simp only [hval, hch, ho, not_true, if_true, if_false, ite_true,
        ite_false, not_false_iff]
      unfold evalOnce
      rw [attemptSends_all_ok env _ hsend]
      simp [hlead]
    have hpa : passAux env today [rem] =
        ⟨dueSends today rem.date rem,
         (if (today == rem.date) = true then [rem] else []), false⟩ := by
      simp [passAux, heval]
    refine ⟨?_, ?_⟩
    · rw [runPass_crashed, hpa]
    · rw [runPass_sent, hpa, ← heffd]
      exact dueSends_spec today rem
  · have heffd : spec_effective_date today rem =
        ⟨today.y, rem.date.m, rem.date.d⟩ := by
      unfold spec_effective_date
      rw [if_pos hy]
    rw [heffd] at heff hlead
    have heval : evalReminder env today rem =
        .ran (dueSends today ⟨today.y, rem.date.m, rem.date.d⟩ rem) false := by
      unfold evalReminder
      by_cases ho : rem.repeats = "once"
      · rw [ho] at hy; exact absurd hy (by decide)
      · simp only [hval, hch, ho, hy, not_true, if_true, if_false, ite_true,
          ite_false, not_false_iff]
        unfold evalYearly
        simp only [heff, hlead, not_true, if_false, ite_false, not_false_iff,
          Bool.false_eq_true]
        rw [attemptSends_all_ok env _ hsend]
        simp [hy]
    have hpa : passAux env today [rem] =
        ⟨dueSends today ⟨today.y, rem.date.m, rem.date.d⟩ rem, [], false⟩ := by
      simp [passAux, heval]
    refine ⟨?_, ?_⟩
    · rw [runPass_crashed, hpa]
    · rw [runPass_sent, hpa, ← heffd]
      exact dueSends_spec today rem

/-- C5 witness: Scenario A five days early — exactly the early message is
delivered, with the effective date 2025-12-31. -/
theorem date_matching_spec_witness :
    (runPass envAll ⟨2025, 12, 26⟩ [remOnceA]).crashed = false ∧
    (runPass envAll ⟨2025, 12, 26⟩ [remOnceA]).sent =
      (if spec_early_due ⟨2025, 12, 26⟩ remOnceA = true
       then [⟨remOnceA, .early, spec_effective_date ⟨2025, 12, 26⟩ remOnceA⟩]
       else []) ++
      (if spec_day_of_due ⟨2025, 12, 26⟩ remOnceA = true
       then [⟨remOnceA, .dayOf, spec_effective_date ⟨2025, 12, 26⟩ remOnceA⟩]
       else []) :=
  date_matching_spec envAll ⟨2025, 12, 26⟩ remOnceA (by decide) rfl
    (fun _ => rfl) (Or.inl rfl) (by decide) (by decide)

/-! ## Helper lemmas for the delete handler -/

/-- With pairwise distinct ids, the linear scan of lines 192-195 finds
exactly the stored record carrying the requested id. -/
theorem find_id_unique {l : List Reminder} {rid : Int} {r : Reminder}
    (hnd : (l.map Reminder.id).Nodup) (hmem : r ∈ l) (hid : r.id = rid) :
    l.find? (fun x => x.id == rid) = some r := by
  induction l with
  | nil => cases hmem
  | cons a rest ih =>
      rw [List.map_cons, List.nodup_cons] at hnd
      rcases List.mem_cons.mp hmem with rfl | hmem'
      · exact List.find?_cons_of_pos rest (by simp [hid])
      · by_cases ha : a.id = rid
        · exfalso
          have hr : r.id ∈ rest.map Reminder.id := List.mem_map_of_mem _ hmem'
          rw [hid, ← ha] at hr
          exact hnd.1 hr
        · rw [List.find?_cons_of_neg rest (by simp [ha])]
          exact ih hnd.2 hmem'

/-- When no stored record carries the requested id, the scan finds nothing. -/
theorem find_id_none {l : List Reminder} {rid : Int}
    (h : ∀ r ∈ l, r.id ≠ rid) :
    l.find? (fun x => x.id == rid) = none := by
  rw [List.find?_eq_none]
  intro x hx
  simp only [beq_iff_eq]
  exact h x hx

/-- In a duplicate-free list, `list.remove` eliminates its target. -/
theorem not_mem_removeFirst_self {l : List Reminder} {r : Reminder}
    (hnd : l.Nodup) : r ∉ removeFirst l r := by
  intro hmem
  have hc := count_removeFirst l r r
  rw [if_pos rfl] at hc
  have h1 : l.count r ≤ 1 := List.nodup_iff_count_le_one.mp hnd r
  have h2 : 0 < (removeFirst l r).count r := List.count_pos_iff.mpr hmem
  omega

/-- `list.remove` keeps every element different from its target. -/
theorem mem_removeFirst_of_ne {l : List Reminder} {t x : Reminder}
    (hx : x ∈ l) (hne : t ≠ x) : x ∈ removeFirst l t := by
  have hc := count_removeFirst l t x
  rw [if_neg hne, Nat.sub_zero] at hc
  refine List.count_pos_iff.mp ?_
  rw [hc]
  exact List.count_pos_iff.mpr hx

/-! ## Claim theorems: the command handlers (C7, C9) -/

/-- C7: on a store with pairwise distinct ids, `/delreminder` returns
`not_found` when no record has the id and leaves the store (memory and disk)
unchanged; returns `forbidden` when the record exists but belongs to another
user, store unchanged; and otherwise removes exactly the requested record
(everything else survives, nothing is added) and persists the new list. -/
theorem delreminder_spec (st : Store) (rid uid : Int)
    (hnd : (st.mem.map Reminder.id).Nodup) :
    ((∀ r ∈ st.mem, r.id ≠ rid) →
      slash_delreminder st rid uid = (.not_found, st)) ∧
    (∀ r ∈ st.mem, r.id = rid → r.author_id ≠ uid →
      slash_delreminder st rid uid = (.forbidden, st)) ∧
    (∀ r ∈ st.mem, r.id = rid → r.author_id = uid →
      (slash_delreminder st rid uid).1 = .success ∧
      (slash_delreminder st rid uid).2.mem = removeFirst st.mem r ∧
      r ∉ (slash_delreminder st rid uid).2.mem ∧
      (∀ x ∈ st.mem, x ≠ r → x ∈ (slash_delreminder st rid uid).2.mem) ∧
      (∀ x ∈ (slash_delreminder st rid uid).2.mem, x ∈ st.mem) ∧
      (slash_delreminder st rid uid).2.disk =
        (slash_delreminder st rid uid).2.mem) := by
  refine ⟨?_, ?_, ?_⟩
  · intro h
    unfold slash_delreminder
    rw [find_id_none h]
  · intro r hmem hid hown
    have hcond : (r.author_id != uid) = true := by
      simp only [bne_iff_ne]
      exact hown
    unfold slash_delreminder
    rw [find_id_unique hnd hmem hid]
    simp [hcond]
  · intro r hmem hid hown
    have hcond : (r.author_id != uid) = false := by
      simp [hown]
    have hres : slash_delreminder st rid uid =
        (.success, ⟨removeFirst st.mem r, removeFirst st.mem r⟩) := by
      unfold slash_delreminder
      rw [find_id_unique hnd hmem hid]
      simp [hcond]
    rw [hres]
    have hndl : st.mem.Nodup := List.Nodup.of_map _ hnd
    refine ⟨rfl, rfl, not_mem_removeFirst_self hndl, ?_, ?_, rfl⟩
    · intro x hx hne
      exact mem_removeFirst_of_ne hx (fun he => hne he.symm)
    · intro x hx
      exact mem_of_mem_removeFirst hx

/-- C7 witness — Scenario C: user 100 asking to delete id 7, owned by user
200, gets `forbidden` and the store is unchanged. -/
theorem delreminder_spec_witness :
    slash_delreminder store7 7 100 = (.forbidden, store7) :=
  (delreminder_spec store7 7 100 (by decide)).2.1 rem7 (by decide) rfl
    (by decide)

/-- C9: `/reminder` validates before mutating — an unparseable date, or a
negative `days_before`, is rejected with the store and the id counter
untouched; when both validations pass, the record built from the supplied
fields (with id `next_id`) is appended, persisted, reported back, and the
counter is incremented. -/
theorem create_validation_spec (st : Store) (next_id : Int)
    (guild_id : Option Int) (channel_id author_id : Int) (date_str : RawDate)
    (repeat_value : String) (days_before : Int) (name : String) :
    (validDate date_str = false →
      slash_reminder st next_id guild_id channel_id author_id date_str
        repeat_value days_before name = (.badDate, st, next_id)) ∧
    (validDate date_str = true → days_before < 0 →
      slash_reminder st next_id guild_id channel_id author_id date_str
        repeat_value days_before name = (.badDays, st, next_id)) ∧
    (validDate date_str = true → 0 ≤ days_before →
      slash_reminder st next_id guild_id channel_id author_id date_str
        repeat_value days_before name =
        (.created ⟨next_id, guild_id, channel_id, author_id, name, date_str,
            repeat_value, days_before⟩,
         ⟨st.mem ++ [⟨next_id, guild_id, channel_id, author_id, name, date_str,
            repeat_value, days_before⟩],
          st.mem ++ [⟨next_id, guild_id, channel_id, author_id, name, date_str,
            repeat_value, days_before⟩]⟩,
         next_id + 1)) := by
  refine ⟨?_, ?_, ?_⟩
  · intro h
    unfold slash_reminder
    rw [if_pos (by simp [h])]
  · intro h hd
    unfold slash_reminder
    rw [if_neg (by simp [h]), if_pos hd]
  · intro h hd
    unfold slash_reminder
    rw [if_neg (by simp [h]), if_neg (by omega)]

/-- C9 witness: creating with the invalid date 2023-02-29 is rejected before
any mutation — empty store and counter unchanged. -/
theorem create_validation_spec_witness :
    slash_reminder storeEmpty 1 none 10 100 ⟨2023, 2, 29⟩ "once" 0 "bad" =
      (.badDate, storeEmpty, 1) :=
  (create_validation_spec storeEmpty 1 none 10 100 ⟨2023, 2, 29⟩ "once" 0
    "bad").1 (by decide)

/-! ## Helper lemmas for the listing order -/

/-- Arithmetic characterization of the `(date, id)` tuple comparison. -/
theorem remLE_iff (a b : Reminder) : remLE a b = true ↔
    (a.date.y < b.date.y ∨ (a.date.y = b.date.y ∧
      (a.date.m < b.date.m ∨ (a.date.m = b.date.m ∧
        (a.date.d < b.date.d ∨ (a.date.d = b.date.d ∧ a.id ≤ b.id)))))) := by
  unfold remLE
  by_cases h1 : a.date.y = b.date.y <;> by_cases h2 : a.date.m = b.date.m <;>
    by_cases h3 : a.date.d = b.date.d <;> simp [h1, h2, h3] <;> omega

/-- The tuple comparison is total. -/
theorem remLE_total2 (a b : Reminder) : (remLE a b || remLE b a) = true := by
  rw [Bool.or_eq_true, remLE_iff, remLE_iff]
  omega

/-- The tuple comparison is transitive. -/
theorem remLE_trans2 (a b c : Reminder) (h1 : remLE a b = true)
    (h2 : remLE b c = true) : remLE a c = true := by
  rw [remLE_iff] at h1 h2 ⊢
  omega

/-- Two reminders below each other in the tuple order share their id. -/
theorem remLE_antisymm_id (a b : Reminder) (h1 : remLE a b = true)
    (h2 : remLE b a = true) : a.id = b.id := by
  rw [remLE_iff] at h1 h2
  omega

/-- Two sorted lists that are permutations of each other coincide, as soon as
the order is antisymmetric on the listed elements. -/
theorem eq_of_perm_of_sorted_local {α : Type} {le : α → α → Prop} :
    ∀ {l1 l2 : List α}, l1.Perm l2 → l1.Pairwise le → l2.Pairwise le →
      (∀ a ∈ l1, ∀ b ∈ l1, le a b → le b a → a = b) → l1 = l2 := by
  intro l1
  induction l1 with
  | nil =>
      intro l2 hp _ _ _
      exact (hp.symm.eq_nil).symm
  | cons a t1 ih =>
      intro l2 hp hs1 hs2 hanti
      cases l2 with
      | nil => cases hp.eq_nil
      | cons b t2 =>
          have hbmem : b ∈ a :: t1 := hp.mem_iff.mpr (List.mem_cons_self b t2)
          have hamem : a ∈ b :: t2 := hp.mem_iff.mp (List.mem_cons_self a t1)
          have hab : a = b := by
            rcases List.mem_cons.mp hbmem with h | h
            · exact h.symm
            · rcases List.mem_cons.mp hamem with h' | h'
              · exact h'
              · exact hanti a (List.mem_cons_self a t1) b hbmem
                  (List.rel_of_pairwise_cons hs1 h)
                  (List.rel_of_pairwise_cons hs2 h')
          subst hab
          have ht : t1.Perm t2 := hp.cons_inv
          rw [ih ht hs1.of_cons hs2.of_cons
            (fun x hx y hy => hanti x (List.mem_cons_of_mem _ hx) y
              (List.mem_cons_of_mem _ hy))]

/-! ## Claim theorem: the listing handler (C8) -/

/-- C8: `/myreminders` returns exactly the invoking user's reminders (as a
permutation of the filtered store, with membership unchanged), sorted
ascending by the `(target_date, id)` tuple — id breaking date ties — and,
whenever ids are pairwise distinct, the output is independent of the order
in which the reminders are stored.  (The handler reads the store without
modifying it: it is a pure function of the list.) -/
theorem myreminders_spec (rems : List Reminder) (user_id : Int) :
    (slash_myreminders rems user_id).Perm
      (rems.filter (fun r => r.author_id == user_id)) ∧
    (∀ r, r ∈ slash_myreminders rems user_id ↔
      r ∈ rems ∧ r.author_id = user_id) ∧
    (slash_myreminders rems user_id).Pairwise (fun a b => remLE a b = true) ∧
    (∀ rems2, rems.Perm rems2 → (rems.map Reminder.id).Nodup →
      slash_myreminders rems user_id = slash_myreminders rems2 user_id) := by
  refine ⟨List.mergeSort_perm _ _, ?_,
    List.sorted_mergeSort remLE_trans2 remLE_total2 _, ?_⟩
  · intro r
    unfold slash_myreminders
    rw [List.mem_mergeSort, List.mem_filter]
    exact and_congr_right (fun _ => beq_iff_eq)
  · intro rems2 hperm hnd
    have h1 : (slash_myreminders rems user_id).Perm
        (slash_myreminders rems2 user_id) := by
      unfold slash_myreminders
      exact (List.mergeSort_perm _ _).trans
        ((hperm.filter _).trans (List.mergeSort_perm _ _).symm)
    refine eq_of_perm_of_sorted_local h1
      (List.sorted_mergeSort remLE_trans2 remLE_total2 _)
      (List.sorted_mergeSort remLE_trans2 remLE_total2 _) ?_
    intro x hx y hy hxy hyx
    have hid : x.id = y.id := remLE_antisymm_id x y hxy hyx
    have hxr : x ∈ rems :=
      (List.mem_filter.mp (List.mem_mergeSort.mp hx)).1
    have hyr : y ∈ rems :=
      (List.mem_filter.mp (List.mem_mergeSort.mp hy)).1
    have hpw : rems.Pairwise (fun a b => a.id ≠ b.id) :=
      List.pairwise_map.mp hnd
    have hsym : Symmetric (fun a b : Reminder => a.id ≠ b.id) :=
      fun a b h he => h he.symm
    by_contra hne
    exact List.Pairwise.forall hsym hpw hxr hyr hne hid

/-- C8 witness — Scenario E: the same owner's reminders come back in the same
(date, id) order regardless of which was stored first. -/
theorem myreminders_spec_witness :
    slash_myreminders [remLater, remSooner] 100 =
      slash_myreminders [remSooner, remLater] 100 :=
  (myreminders_spec [remLater, remSooner] 100).2.2.2 [remSooner, remLater]
    (by decide) (by decide)
